import Mathlib

/-!
Verification of the BaseVault DeFi vault dashboard against its specification.

The repository contains a React frontend (vault listing, vault detail, admin
CRUD pages, wallet actions) and a small Express demo backend.  The pricing
core described by the spec (price cache, external price fetcher, vault
adapters, APY/TVL calculator, aggregation endpoints — `price_service.py`,
`vault_adapters.py`, `beefy_api.py`) is referenced by the PRD and the spec but
its source is not part of the provided tree; where a property is decided by
that core, the corresponding definition below is modelled from the spec and
says so in its doc comment.  All other definitions are direct shallow
embeddings of the JavaScript source: JS numbers that stay integral are `Nat`,
BigInt is `Nat` (all values in play are nonnegative), decimal digit strings
are lists of `Fin 10` (most significant digit first), fallible operations
return `Option`.
-/

namespace DefiVault

/-- Data-quality tag attached to derived figures: `ok`, `stale` or `error`. -/
inductive Quality where
  | ok
  | stale
  | error
deriving DecidableEq, Repr

/-- The overall `dataQuality` computed in the `VaultCard` component
(src/unnamed/part_006, lines 33-37):
`tvl?.dataQuality === 'error' || apy?.dataQuality === 'error' ? 'error'
 : tvl?.dataQuality === 'stale' || apy?.dataQuality === 'stale' ? 'stale' : 'ok'`.
A missing `tvl`/`apy` object (or a missing `dataQuality` field) makes the
optional-chaining expression `undefined`, modelled here as `none`. -/
def vaultCardDataQuality (tvlQ apyQ : Option Quality) : Quality :=
  if tvlQ = some Quality.error ∨ apyQ = some Quality.error then Quality.error
  else if tvlQ = some Quality.stale ∨ apyQ = some Quality.stale then Quality.stale
  else Quality.ok

/-- Modelled from the spec: the APY/TVL Calculator (`price_service.py` /
`beefy_api.py`, not under src/) combines the quality tags of a vault's price
inputs pairwise, with `error` dominating `stale` dominating `ok`. -/
def combine2 (a b : Quality) : Quality :=
  if a = Quality.error ∨ b = Quality.error then Quality.error
  else if a = Quality.stale ∨ b = Quality.stale then Quality.stale
  else Quality.ok

/-- Modelled from the spec: the overall `dataQuality` of a vault's computed
figures is the combination of the quality tags of all its inputs, starting
from `ok` (no inputs means `ok`). -/
def combineQuality (qs : List Quality) : Quality :=
  qs.foldl combine2 Quality.ok

lemma combine2_ok_left (a : Quality) : combine2 Quality.ok a = a := by
  cases a <;> rfl

lemma combine2_ok_right (a : Quality) : combine2 a Quality.ok = a := by
  cases a <;> rfl

lemma combine2_assoc (a b c : Quality) :
    combine2 (combine2 a b) c = combine2 a (combine2 b c) := by
  cases a <;> cases b <;> cases c <;> rfl

lemma foldl_combine2_eq (qs : List Quality) (a : Quality) :
    qs.foldl combine2 a = combine2 a (combineQuality qs) := by
  induction qs generalizing a with
  | nil => simp [combineQuality, combine2_ok_right]
  | cons b qs ih =>
      simp only [combineQuality, List.foldl_cons, combine2_ok_left] at ih ⊢
      rw [ih (combine2 a b), combine2_assoc, ← ih b]

lemma combineQuality_cons (a : Quality) (qs : List Quality) :
    combineQuality (a :: qs) = combine2 a (combineQuality qs) := by
  simp only [combineQuality, List.foldl_cons, combine2_ok_left]
  exact foldl_combine2_eq qs a

lemma combine2_error_left (b : Quality) :
    combine2 Quality.error b = Quality.error := by cases b <;> rfl

lemma combine2_error_right (a : Quality) :
    combine2 a Quality.error = Quality.error := by cases a <;> rfl

lemma combineQuality_of_error_mem {qs : List Quality}
    (h : Quality.error ∈ qs) : combineQuality qs = Quality.error := by
  induction qs with
  | nil => cases h
  | cons a qs ih =>
      rw [combineQuality_cons]
      rcases List.mem_cons.mp h with rfl | h
      · exact combine2_error_left _
      · rw [ih h]; exact combine2_error_right a

lemma combineQuality_ne_error {qs : List Quality}
    (he : Quality.error ∉ qs) : combineQuality qs ≠ Quality.error := by
  induction qs with
  | nil => simp [combineQuality]
  | cons a qs ih =>
      rw [combineQuality_cons]
      have he' : Quality.error ∉ qs := fun h => he (List.mem_cons_of_mem a h)
      have hae : a ≠ Quality.error := fun h => he (by
        rw [h]; exact List.mem_cons_self _ _)
      have hq := ih he'
      cases a with
      | error => exact absurd rfl hae
      | ok => rw [combine2_ok_left]; exact hq
      | stale =>
          cases hcq : combineQuality qs with
          | ok => decide
          | stale => decide
          | error => exact absurd hcq hq

lemma combineQuality_of_stale_mem {qs : List Quality}
    (he : Quality.error ∉ qs) (hs : Quality.stale ∈ qs) :
    combineQuality qs = Quality.stale := by
  induction qs with
  | nil => cases hs
  | cons a qs ih =>
      rw [combineQuality_cons]
      have hae : a ≠ Quality.error := fun h => he (by
        rw [h]; exact List.mem_cons_self _ _)
      have he' : Quality.error ∉ qs := fun h => he (List.mem_cons_of_mem a h)
      rcases List.mem_cons.mp hs with rfl | hs
      · rcases hq : combineQuality qs with _ | _ | _
        · rfl
        · rfl
        · exact absurd hq (combineQuality_ne_error he')
      · rw [ih he' hs]
        cases a with
        | ok => rfl
        | stale => rfl
        | error => exact absurd rfl hae

lemma combineQuality_of_none_mem {qs : List Quality}
    (he : Quality.error ∉ qs) (hs : Quality.stale ∉ qs) :
    combineQuality qs = Quality.ok := by
  induction qs with
  | nil => rfl
  | cons a qs ih =>
      rw [combineQuality_cons]
      have he' : Quality.error ∉ qs := fun h => he (List.mem_cons_of_mem a h)
      have hs' : Quality.stale ∉ qs := fun h => hs (List.mem_cons_of_mem a h)
      rw [ih he' hs']
      cases a with
      | ok => rfl
      | stale => exact absurd (List.mem_cons_self _ _) hs
      | error => exact absurd (List.mem_cons_self _ _) he

/-- C1: data-quality precedence.  For the calculator's combination of a
vault's input quality tags (`combineQuality`): if at least one input is
`error` the overall result is `error`; otherwise if at least one is `stale`
the result is `stale`; otherwise it is `ok`.  The same precedence holds for
the `VaultCard` combination of the TVL and APY quality tags
(`vaultCardDataQuality`). -/
theorem c1_dataQuality_precedence :
    (∀ qs : List Quality,
      (Quality.error ∈ qs → combineQuality qs = Quality.error) ∧
      (Quality.error ∉ qs → Quality.stale ∈ qs →
        combineQuality qs = Quality.stale) ∧
      (Quality.error ∉ qs → Quality.stale ∉ qs →
        combineQuality qs = Quality.ok)) ∧
    (∀ tvlQ apyQ : Option Quality,
      ((tvlQ = some Quality.error ∨ apyQ = some Quality.error) →
        vaultCardDataQuality tvlQ apyQ = Quality.error) ∧
      (¬(tvlQ = some Quality.error ∨ apyQ = some Quality.error) →
        (tvlQ = some Quality.stale ∨ apyQ = some Quality.stale) →
        vaultCardDataQuality tvlQ apyQ = Quality.stale) ∧
      (¬(tvlQ = some Quality.error ∨ apyQ = some Quality.error) →
        ¬(tvlQ = some Quality.stale ∨ apyQ = some Quality.stale) →
        vaultCardDataQuality tvlQ apyQ = Quality.ok)) := by
  constructor
  · intro qs
    exact ⟨combineQuality_of_error_mem,
      fun he hs => combineQuality_of_stale_mem he hs,
      fun he hs => combineQuality_of_none_mem he hs⟩
  · intro tvlQ apyQ
    refine ⟨fun h => ?_, fun hne hs => ?_, fun hne hns => ?_⟩
    · simp [vaultCardDataQuality, h]
    · simp [vaultCardDataQuality, hne, hs]
    · simp [vaultCardDataQuality, hne, hns]

/-- Witness for C1 at concrete inputs: one `error` among the calculator's
inputs forces `error`, and a `stale` TVL tag with an `ok` APY tag gives the
card a `stale` badge. -/
theorem c1_dataQuality_precedence_witness :
    combineQuality [Quality.ok, Quality.stale, Quality.error] = Quality.error ∧
    vaultCardDataQuality (some Quality.stale) (some Quality.ok) =
      Quality.stale :=
  ⟨(c1_dataQuality_precedence.1
      [Quality.ok, Quality.stale, Quality.error]).1 (by decide),
   ((c1_dataQuality_precedence.2 (some Quality.stale) (some Quality.ok)).2.1
      (by decide) (by decide))⟩

/-- The `ApyBreakdown` record produced by the APY/TVL Calculator (data model
of the spec, §3).  Rates are modelled as exact rationals. -/
structure ApyBreakdown where
  vaultApr : ℚ
  vaultApy : ℚ
  tradingApr : ℚ
  totalApy : ℚ
  compoundingsPerYear : ℕ
  performanceFee : ℚ
  dataQuality : Quality
deriving DecidableEq, Repr

/-- Modelled from the spec: `computeApy` of the APY/TVL Calculator
(`beefy_api.py`, not under src/).  From the net vault APR it compounds
`vaultApy = (1 + vaultApr/compoundingsPerYear)^compoundingsPerYear - 1`, sets
`tradingApr = 0` (explicit unimplemented placeholder) and
`totalApy = vaultApy + tradingApr`; the quality tag is the combination of the
input qualities. -/
def computeApy (vaultApr : ℚ) (compoundingsPerYear : ℕ) (performanceFee : ℚ)
    (inputQualities : List Quality) : ApyBreakdown :=
  let vaultApy : ℚ := (1 + vaultApr / compoundingsPerYear) ^ compoundingsPerYear - 1
  let tradingApr : ℚ := 0
  { vaultApr := vaultApr
    vaultApy := vaultApy
    tradingApr := tradingApr
    totalApy := vaultApy + tradingApr
    compoundingsPerYear := compoundingsPerYear
    performanceFee := performanceFee
    dataQuality := combineQuality inputQualities }

/-- C2: compounding invariant and monotonicity.  Every `ApyBreakdown` the
calculator produces satisfies
`vaultApy = (1 + vaultApr/compoundingsPerYear)^compoundingsPerYear - 1`, and
for positive `vaultApr` and `compoundingsPerYear ≥ 1` the compounded yield is
at least the simple rate: `vaultApy ≥ vaultApr`. -/
theorem c2_compounding_invariant (apr fee : ℚ) (qs : List Quality) (n : ℕ)
    (hn : 1 ≤ n) :
    (computeApy apr n fee qs).vaultApy = (1 + apr / n) ^ n - 1 ∧
    (0 < apr → apr ≤ (computeApy apr n fee qs).vaultApy) := by
  refine ⟨rfl, fun hapr => ?_⟩
  have hn0 : (n : ℚ) ≠ 0 := Nat.cast_ne_zero.mpr (by omega)
  have hdiv : (0 : ℚ) < apr / n :=
    div_pos hapr (by exact_mod_cast Nat.pos_of_ne_zero (by omega))
  have hber : 1 + (n : ℚ) * (apr / n) ≤ (1 + apr / n) ^ n :=
    one_add_mul_le_pow (by linarith) n
  have hcancel : (n : ℚ) * (apr / n) = apr := mul_div_cancel₀ apr hn0
  rw [hcancel] at hber
  show apr ≤ (1 + apr / n) ^ n - 1
  linarith

/-- Witness for C2 at `vaultApr = 1`, `compoundingsPerYear = 2`: the
compounded yield `(1 + 1/2)^2 - 1 = 5/4` is at least the simple rate `1`. -/
theorem c2_compounding_invariant_witness :
    (computeApy 1 2 0 []).vaultApy = (1 + (1 : ℚ) / 2) ^ 2 - 1 ∧
    (1 : ℚ) ≤ (computeApy 1 2 0 []).vaultApy :=
  ⟨(c2_compounding_invariant 1 0 [] 2 (by norm_num)).1,
   (c2_compounding_invariant 1 0 [] 2 (by norm_num)).2 (by norm_num)⟩

/-- C3: for every `ApyBreakdown` the calculator produces, `tradingApr` is the
hardcoded placeholder `0` and `totalApy = vaultApy + tradingApr` (hence
`totalApy = vaultApy`). -/
theorem c3_totalApy_decomposition (apr fee : ℚ) (qs : List Quality) (n : ℕ) :
    (computeApy apr n fee qs).tradingApr = 0 ∧
    (computeApy apr n fee qs).totalApy =
      (computeApy apr n fee qs).vaultApy + (computeApy apr n fee qs).tradingApr ∧
    (computeApy apr n fee qs).totalApy = (computeApy apr n fee qs).vaultApy := by
  refine ⟨rfl, rfl, ?_⟩
  show (1 + apr / n) ^ n - 1 + 0 = (1 + apr / n) ^ n - 1
  ring

/-- A cached price entry: last fetched price and its fetch timestamp
(data model of the spec, §3; timestamps in seconds). -/
structure PriceEntry where
  price : ℚ
  fetchedAt : ℕ
deriving DecidableEq, Repr

/-- Modelled from the spec: `get` of the Price Cache (`price_service.py`, not
under src/).  Given the cached entry for the requested token key (if any),
the current time, the TTL, and the outcome the Fetcher would produce
(`none` = fetch failure), it returns the priced result with its quality tag
together with the updated cache entry:
* cache hit within TTL: the cached price tagged `ok`, no fetch performed;
* miss or TTL expiry with fetch success: the fresh price tagged `ok`, stored;
* fetch failure with a last known price: that price tagged `stale`;
* fetch failure with no cached value: price `0` tagged `error`. -/
def cacheGet (ttl now : ℕ) (entry : Option PriceEntry)
    (fetchResult : Option ℚ) : (ℚ × Quality) × Option PriceEntry :=
  match entry with
  | some e =>
      if now - e.fetchedAt ≤ ttl then ((e.price, Quality.ok), some e)
      else
        match fetchResult with
        | some p => ((p, Quality.ok), some ⟨p, now⟩)
        | none => ((e.price, Quality.stale), some e)
  | none =>
      match fetchResult with
      | some p => ((p, Quality.ok), some ⟨p, now⟩)
      | none => ((0, Quality.error), none)

/-- Modelled from the spec: `computeTvl` of the APY/TVL Calculator values the
vault's balance at the unit price returned by the cache and propagates the
price's quality tag. -/
def computeTvl (balance : ℚ) (priceResult : ℚ × Quality) : ℚ × Quality :=
  (priceResult.1 * balance, priceResult.2)

/-- C4: price-cache fallback on fetch failure.  When the fetch fails
(`fetchResult = none`): with no cached value the cache returns price `0`
tagged `error` and the vault's TVL is `0` with quality `error`; with a cached
value inside the TTL the cached price is returned tagged `ok` (the fetcher is
not even consulted); with a cached value outside the TTL the last known price
is returned tagged `stale`. -/
theorem c4_cache_fallback (ttl now : ℕ) (e : PriceEntry) (balance : ℚ) :
    ((cacheGet ttl now none none).1 = (0, Quality.error) ∧
      computeTvl balance (cacheGet ttl now none none).1 = (0, Quality.error)) ∧
    (now - e.fetchedAt ≤ ttl →
      (cacheGet ttl now (some e) none).1 = (e.price, Quality.ok)) ∧
    (ttl < now - e.fetchedAt →
      (cacheGet ttl now (some e) none).1 = (e.price, Quality.stale)) := by
  refine ⟨⟨rfl, by simp [cacheGet, computeTvl]⟩, fun h => ?_, fun h => ?_⟩
  · simp [cacheGet, h]
  · simp [cacheGet, Nat.not_le.mpr h]

/-- Witness for C4: at `ttl = 60`, a fetch failure with no cache gives
`(0, error)` and TVL `(0, error)`; an entry fetched at time `0` is served
`ok` at `now = 30` and `stale` at `now = 100`. -/
theorem c4_cache_fallback_witness :
    ((cacheGet 60 30 none none).1 = (0, Quality.error) ∧
      computeTvl 5 (cacheGet 60 30 none none).1 = (0, Quality.error)) ∧
    (cacheGet 60 30 (some ⟨7, 0⟩) none).1 = ((7 : ℚ), Quality.ok) ∧
    (cacheGet 60 100 (some ⟨7, 0⟩) none).1 = ((7 : ℚ), Quality.stale) :=
  ⟨(c4_cache_fallback 60 30 ⟨7, 0⟩ 5).1,
   (c4_cache_fallback 60 30 ⟨7, 0⟩ 5).2.1 (by norm_num),
   (c4_cache_fallback 60 100 ⟨7, 0⟩ 5).2.2 (by norm_num)⟩

/-- The kind of price a fetch request asks for: a single token's price or an
LP token's unit price. -/
inductive PriceKind where
  | single
  | lp
deriving DecidableEq, Repr

/-- Result of a fetch: the price and whether the upstream price API was
actually called. -/
structure FetchResult where
  price : ℚ
  usedUpstream : Bool
deriving DecidableEq, Repr

/-- Chain IDs designated as test networks (Base Sepolia, 84532). -/
def TEST_NETWORKS : List ℕ := [84532]

/-- Modelled from the spec: the External Price Fetcher (`price_service.py`,
not under src/).  For test-network chain IDs it returns the fixed mock
values `100.0` (single token) / `200.0` (LP) without calling upstream;
otherwise it consults the upstream API (modelled as a function, `none` =
upstream failure). -/
def fetchPrice (upstream : PriceKind → Option ℚ) (chainId : ℕ)
    (kind : PriceKind) : Option FetchResult :=
  if chainId ∈ TEST_NETWORKS then
    some { price := match kind with | PriceKind.single => 100 | PriceKind.lp => 200
           usedUpstream := false }
  else
    match upstream kind with
    | some p => some { price := p, usedUpstream := true }
    | none => none

/-- C6: test-network mocking.  For chain ID 84532 the fetcher returns the
fixed mock `100.0` for single-token prices and `200.0` for LP prices, with
the upstream-called flag `false`, and its answer does not depend on the
upstream API at all. -/
theorem c6_testnet_mock (upstream upstream2 : PriceKind → Option ℚ)
    (kind : PriceKind) :
    fetchPrice upstream 84532 PriceKind.single =
      some { price := 100, usedUpstream := false } ∧
    fetchPrice upstream 84532 PriceKind.lp =
      some { price := 200, usedUpstream := false } ∧
    fetchPrice upstream 84532 kind = fetchPrice upstream2 84532 kind := by
  refine ⟨rfl, rfl, ?_⟩
  cases kind <;> rfl

/-- A vault configuration record, reduced to the fields the aggregation
endpoints consult (data model of the spec, §3). -/
structure VaultConfig where
  id : String
  chainId : ℕ
deriving DecidableEq, Repr

/-- The error taxonomy of the spec (§7). -/
inductive CalcError where
  | fetchError
  | rateLimited
  | unsupportedVaultShape
  | invalidVaultConfig
deriving DecidableEq, Repr

/-- An HTTP response of a bulk endpoint: status code and one entry per vault
id. -/
structure BulkResponse (α : Type) where
  status : ℕ
  entries : List (String × α)

/-- Modelled from the spec: the shared shape of the bulk aggregation
endpoints (`/prices`, `/lps`, `/tvl`, `/apy` in `beefy_api.py`, not under
src/).  Each configured vault is processed by the per-vault computation; a
per-vault failure is converted into that vault's error-tagged entry
(`onFailure`) instead of aborting the batch, and the response status is
always 200. -/
def bulkEndpoint {α : Type} (vaults : List VaultConfig)
    (compute : VaultConfig → Except CalcError α)
    (onFailure : CalcError → α) : BulkResponse α :=
  { status := 200
    entries := vaults.map fun v =>
      (v.id, match compute v with
             | Except.ok a => a
             | Except.error e => onFailure e) }

/-- Modelled from the spec: the single-vault endpoint `GET /apy/{vaultId}`
(`beefy_api.py`, not under src/).  A vault id absent from storage is a hard
`InvalidVaultConfig` error (HTTP 404); for a stored vault the per-vault
computation runs with its failures degraded to an error-tagged entry. -/
def singleVaultEndpoint {α : Type} (vaults : List VaultConfig)
    (compute : VaultConfig → Except CalcError α)
    (onFailure : CalcError → α) (vaultId : String) : Except CalcError α :=
  match vaults.find? (fun v => v.id = vaultId) with
  | none => Except.error CalcError.invalidVaultConfig
  | some v =>
      Except.ok (match compute v with
                 | Except.ok a => a
                 | Except.error e => onFailure e)

/-- C7: aggregation error policy.  Every bulk endpoint returns HTTP 200 with
exactly one entry per configured vault (in particular a failing vault never
aborts the batch), each entry carrying the per-vault result or its degraded
error value; only a single-vault request for a vault id not present in
storage surfaces the hard `InvalidVaultConfig` error. -/
theorem c7_aggregation_error_policy {α : Type} (vaults : List VaultConfig)
    (compute : VaultConfig → Except CalcError α) (onFailure : CalcError → α) :
    (bulkEndpoint vaults compute onFailure).status = 200 ∧
    (bulkEndpoint vaults compute onFailure).entries.map Prod.fst =
      vaults.map VaultConfig.id ∧
    (∀ vaultId : String,
      vaults.find? (fun v => v.id = vaultId) = none →
      singleVaultEndpoint vaults compute onFailure vaultId =
        Except.error CalcError.invalidVaultConfig) ∧
    (∀ vaultId : String, ∀ v : VaultConfig,
      vaults.find? (fun v => v.id = vaultId) = some v →
      ∃ a : α, singleVaultEndpoint vaults compute onFailure vaultId =
        Except.ok a) := by
  refine ⟨rfl, ?_, fun vid h => ?_, fun vid v h => ?_⟩
  · simp [bulkEndpoint]
  · simp [singleVaultEndpoint, h]
  · exact ⟨_, by rw [singleVaultEndpoint, h]⟩

/-- Witness for C7 on a two-vault store where the second vault's computation
fails hard: the bulk response is still 200 with both entries, the failing
vault's entry degraded to quality `error`; requesting the APY of the missing
id "nope" is the hard `InvalidVaultConfig` error while the stored id "v1"
answers. -/
theorem c7_aggregation_error_policy_witness :
    (bulkEndpoint [⟨"v1", 8453⟩, ⟨"v2", 8453⟩]
        (fun v => if v.id = "v2" then Except.error CalcError.fetchError
                  else Except.ok Quality.ok)
        (fun _ => Quality.error)).status = 200 ∧
    (bulkEndpoint [⟨"v1", 8453⟩, ⟨"v2", 8453⟩]
        (fun v => if v.id = "v2" then Except.error CalcError.fetchError
                  else Except.ok Quality.ok)
        (fun _ => Quality.error)).entries.map Prod.fst = ["v1", "v2"] ∧
    singleVaultEndpoint [⟨"v1", 8453⟩, ⟨"v2", 8453⟩]
        (fun v => if v.id = "v2" then Except.error CalcError.fetchError
                  else Except.ok Quality.ok)
        (fun _ => Quality.error) "nope" =
      Except.error CalcError.invalidVaultConfig ∧
    ∃ a : Quality, singleVaultEndpoint [⟨"v1", 8453⟩, ⟨"v2", 8453⟩]
        (fun v => if v.id = "v2" then Except.error CalcError.fetchError
                  else Except.ok Quality.ok)
        (fun _ => Quality.error) "v1" = Except.ok a :=
  ⟨(c7_aggregation_error_policy _ _ _).1,
   (c7_aggregation_error_policy _ _ _).2.1,
   (c7_aggregation_error_policy _ _ _).2.2.1 "nope" (by decide),
   (c7_aggregation_error_policy _ _ _).2.2.2 "v1" ⟨"v1", 8453⟩ (by decide)⟩

/-- A JavaScript value, as far as `normalizeVaults` can observe one:
`null`, `undefined`, booleans, (rational) numbers, strings, arrays and plain
objects (field lists, first binding wins). -/
inductive JSValue where
  | nullV
  | undef
  | boolV (b : Bool)
  | numV (q : ℚ)
  | strV (s : String)
  | arrV (elems : List JSValue)
  | objV (fields : List (String × JSValue))

/-- `Array.isArray`. -/
def isArray : JSValue → Bool
  | JSValue.arrV _ => true
  | _ => false

/-- JS truthiness (`!x` is `!truthy x`).  `NaN` does not arise for the
rational number model. -/
def truthy : JSValue → Bool
  | JSValue.nullV => false
  | JSValue.undef => false
  | JSValue.boolV b => b
  | JSValue.numV q => q ≠ 0
  | JSValue.strV s => s ≠ ""
  | JSValue.arrV _ => true
  | JSValue.objV _ => true

/-- Whether `typeof x === 'object'`: true for `null`, arrays and plain
objects. -/
def typeofIsObject : JSValue → Bool
  | JSValue.nullV => true
  | JSValue.arrV _ => true
  | JSValue.objV _ => true
  | _ => false

/-- Property access `v.k`: the first binding of `k` on an object, `undefined`
otherwise (the array prototype exposes none of the field names used here). -/
def getField (v : JSValue) (k : String) : JSValue :=
  match v with
  | JSValue.objV fields =>
      match fields.find? (fun p => p.1 = k) with
      | some p => p.2
      | none => JSValue.undef
  | _ => JSValue.undef

/-- `normalizeVaults` from the vaults page (src/unnamed/part_004, lines
17-25), line by line:
`if (Array.isArray(data)) return data;`
`if (!data || typeof data !== 'object') return [];`
then the first of `data.vaults`, `data.data`, `data.items`, `data.results`
that is an array, else `[]`. -/
def normalizeVaults (data : JSValue) : JSValue :=
  if isArray data then data
  else if !truthy data || !typeofIsObject data then JSValue.arrV []
  else if isArray (getField data "vaults") then getField data "vaults"
  else if isArray (getField data "data") then getField data "data"
  else if isArray (getField data "items") then getField data "items"
  else if isArray (getField data "results") then getField data "results"
  else JSValue.arrV []

/-- The claim's description of `normalizeVaults`, written from its words: the
value itself when it is an array; for a non-null object the first of the
fields `vaults`, `data`, `items`, `results` holding an array; the empty array
in every other case. -/
def normalizeVaultsClaim (data : JSValue) : JSValue :=
  if isArray data then data
  else if truthy data && typeofIsObject data then
    match [getField data "vaults", getField data "data",
           getField data "items", getField data "results"].find?
            (fun x => isArray x) with
    | some a => a
    | none => JSValue.arrV []
  else JSValue.arrV []

lemma normalizeVaults_eq_claim (data : JSValue) :
    normalizeVaults data = normalizeVaultsClaim data := by
  rw [normalizeVaults, normalizeVaultsClaim]
  by_cases ha : isArray data
  · simp [ha]
  · simp only [ha, if_false, Bool.not_eq_true']
    by_cases ht : truthy data
    · by_cases ho : typeofIsObject data
      · simp only [ht, ho, Bool.not_true, Bool.false_or, if_false,
          Bool.and_self, if_true, List.find?]
        by_cases h1 : isArray (getField data "vaults") <;>
          by_cases h2 : isArray (getField data "data") <;>
            by_cases h3 : isArray (getField data "items") <;>
              by_cases h4 : isArray (getField data "results") <;>
                simp [h1, h2, h3, h4]
      · simp [ht, ho]
    · simp [ht]

lemma normalizeVaultsClaim_isArray (data : JSValue) :
    isArray (normalizeVaultsClaim data) = true := by
  rw [normalizeVaultsClaim]
  by_cases ha : isArray data
  · simp [ha]
  · simp only [ha, if_false]
    by_cases hto : (truthy data && typeofIsObject data) = true
    · simp only [hto, if_true]
      rcases hf : List.find? (fun x => isArray x)
          [getField data "vaults", getField data "data",
           getField data "items", getField data "results"] with _ | a
      · simp [isArray]
      · simpa using List.find?_some hf
    · simp [hto, isArray]

/-- C8: `normalizeVaults` is total and always yields an array.  It agrees at
every JavaScript value with the claim's description (array passed through;
first array-valued field among `vaults`, `data`, `items`, `results` for a
non-null object; empty array in every other case), and its result is always
an array — it is a total function, so it never throws. -/
theorem c8_normalizeVaults_total (data : JSValue) :
    normalizeVaults data = normalizeVaultsClaim data ∧
    isArray (normalizeVaults data) = true := by
  have he := normalizeVaults_eq_claim data
  exact ⟨he, he ▸ normalizeVaultsClaim_isArray data⟩

/-- `lpToShares` from `VaultActions` (src/unnamed/part_008, lines 133-142):
`if (!pricePerShare || pricePerShare === 0n) return 0n;` then inside a
`try`/`catch` returning `0n` on throw:
`const lpWei = parseUnits(lpAmount, decimals);`
`return (lpWei * BigInt(10 ** decimals)) / pricePerShare;`.
`pricePerShare` is an optional contract read (a nonnegative BigInt, so
`!pricePerShare` is true exactly on `undefined` and `0n`); the viem library
call `parseUnits`, which throws on an unparseable amount string, is modelled
as a function returning `none` for the throw.  `10 ** decimals` is exact for
the token decimals in play (≤ 18) and BigInt division truncates, which on
nonnegative values is `Nat` division. -/
def lpToShares (parseUnits : String → Option ℕ) (pricePerShare : Option ℕ)
    (decimals : ℕ) (lpAmount : String) : ℕ :=
  match pricePerShare with
  | none => 0
  | some pps =>
      if pps = 0 then 0
      else
        match parseUnits lpAmount with
        | none => 0
        | some lpWei => lpWei * 10 ^ decimals / pps

/-- C10: guarded share conversion.  `lpToShares` returns `0` whenever
`pricePerShare` is `undefined` or `0`, and returns `0` (instead of
propagating the throw) whenever the amount string cannot be parsed — so the
division is never reached with a zero or missing divisor. -/
theorem c10_lpToShares_guard (parseUnits : String → Option ℕ)
    (pricePerShare : Option ℕ) (decimals : ℕ) (lpAmount : String) :
    (pricePerShare = none ∨ pricePerShare = some 0 →
      lpToShares parseUnits pricePerShare decimals lpAmount = 0) ∧
    (parseUnits lpAmount = none →
      lpToShares parseUnits pricePerShare decimals lpAmount = 0) := by
  constructor
  · rintro (rfl | rfl)
    · rfl
    · rfl
  · intro hp
    match pricePerShare with
    | none => rfl
    | some pps =>
        by_cases h : pps = 0
        · simp [lpToShares, h]
        · simp [lpToShares, h, hp]

/-- Witness for C10: with `pricePerShare = 0n` the conversion of "1.5" is
`0`, and with a healthy `pricePerShare` an unparseable amount also yields
`0`. -/
theorem c10_lpToShares_guard_witness :
    lpToShares (fun _ => some 15) (some 0) 18 "1.5" = 0 ∧
    lpToShares (fun _ => none) (some 1000000000000000000) 18 "abc" = 0 :=
  ⟨(c10_lpToShares_guard (fun _ => some 15) (some 0) 18 "1.5").1
      (Or.inr rfl),
   (c10_lpToShares_guard (fun _ => none) (some 1000000000000000000) 18
      "abc").2 rfl⟩

/-- Modelled from the spec: the `ConstantProductPair` LP adapter
(`vault_adapters.py`, not under src/) values one LP token at
`2 * sqrt(reserve0 * reserve1 * price0 * price1) / totalSupply`, the standard
constant-product fair-value formula. -/
noncomputable def constantProductLpUnitPrice
    (reserve0 reserve1 price0 price1 totalSupply : ℝ) : ℝ :=
  2 * Real.sqrt (reserve0 * reserve1 * price0 * price1) / totalSupply

/-- Modelled from the spec: the `SingleToken` LP adapter
(`vault_adapters.py`, not under src/) returns the underlying token price
directly. -/
def singleTokenLpUnitPrice (price : ℝ) : ℝ :=
  price

/-- C5: `ConstantProductPair` LP valuation.  For positive `totalSupply` (and
a nonnegative radicand, automatic for nonnegative reserves and prices), the
adapter's unit price is the nonnegative solution of
`(lpUnitPrice * totalSupply)^2 = 4 * reserve0 * reserve1 * price0 * price1`,
i.e. exactly `2 * sqrt(reserve0 * reserve1 * price0 * price1) / totalSupply`;
at reserve0 = reserve1 = 100, price0 = price1 = 1, totalSupply = 200 it is
exactly `1`, and the `SingleToken` adapter is the identity on the underlying
price. -/
theorem c5_lp_valuation (r0 r1 p0 p1 t price : ℝ) (htpos : 0 < t)
    (hrad : 0 ≤ r0 * r1 * p0 * p1) :
    (constantProductLpUnitPrice r0 r1 p0 p1 t * t) ^ 2 =
      4 * (r0 * r1 * p0 * p1) ∧
    0 ≤ constantProductLpUnitPrice r0 r1 p0 p1 t ∧
    constantProductLpUnitPrice 100 100 1 1 200 = 1 ∧
    singleTokenLpUnitPrice price = price := by
  have ht0 : t ≠ 0 := ne_of_gt htpos
  refine ⟨?_, ?_, ?_, rfl⟩
  · rw [constantProductLpUnitPrice, div_mul_cancel₀ _ ht0, mul_pow,
      Real.sq_sqrt hrad]
    norm_num
  · exact div_nonneg (by positivity) htpos.le
  · rw [constantProductLpUnitPrice]
    have h1 : (100 : ℝ) * 100 * 1 * 1 = 100 ^ 2 := by norm_num
    rw [h1, Real.sqrt_sq (by norm_num : (0 : ℝ) ≤ 100)]
    norm_num

/-- Witness for C5 at the spec's scenario (reserves 100/100, prices 1/1,
totalSupply 200): the squared characterization holds, the unit price is
nonnegative and equals exactly `1`. -/
theorem c5_lp_valuation_witness :
    (constantProductLpUnitPrice 100 100 1 1 200 * 200) ^ 2 =
      4 * ((100 : ℝ) * 100 * 1 * 1) ∧
    0 ≤ constantProductLpUnitPrice 100 100 1 1 200 ∧
    constantProductLpUnitPrice 100 100 1 1 200 = 1 ∧
    singleTokenLpUnitPrice (7 : ℝ) = 7 :=
  ⟨(c5_lp_valuation 100 100 1 1 200 7 (by norm_num) (by norm_num)).1,
   (c5_lp_valuation 100 100 1 1 200 7 (by norm_num) (by norm_num)).2.1,
   (c5_lp_valuation 100 100 1 1 200 7 (by norm_num) (by norm_num)).2.2.1,
   (c5_lp_valuation 100 100 1 1 200 7 (by norm_num) (by norm_num)).2.2.2⟩

/-- Numeric value of a decimal digit string, most significant digit first. -/
def digitsVal : List (Fin 10) → ℕ
  | [] => 0
  | d :: l => d.val * 10 ^ l.length + digitsVal l

/-- `str.padEnd(n, '0')` on a digit string. -/
def padEnd (l : List (Fin 10)) (n : ℕ) : List (Fin 10) :=
  l ++ List.replicate (n - l.length) (0 : Fin 10)

/-- `str.padStart(n, '0')` on a digit string. -/
def padStart (l : List (Fin 10)) (n : ℕ) : List (Fin 10) :=
  List.replicate (n - l.length) (0 : Fin 10) ++ l

/-- The decimal digits of a natural number, least significant first (empty
for zero). -/
def natToDigitsRev : ℕ → List (Fin 10)
  | 0 => []
  | n + 1 =>
      (⟨(n + 1) % 10, by omega⟩ : Fin 10) :: natToDigitsRev ((n + 1) / 10)
decreasing_by exact Nat.div_lt_self (Nat.succ_pos n) (by norm_num)

/-- `BigInt.prototype.toString()` as a digit string: `"0"` for zero, the
decimal digits without leading zeros otherwise. -/
def natDigits (n : ℕ) : List (Fin 10) :=
  if n = 0 then [(0 : Fin 10)] else (natToDigitsRev n).reverse

/-- `toWei` from the shared frontend utils (src/unnamed/part_001, lines
168-173):
`const [whole, fraction = ''] = value.split('.');`
`const paddedFraction = fraction.padEnd(decimals, '0').slice(0, decimals);`
`return BigInt(whole + paddedFraction).toString();`
The input decimal string is given by its whole-part and fraction-part digit
strings and the returned BigInt string is modelled by its numeric value
(string concatenation of digit strings is list append).  The guard
`if (!value) return '0'` does not fire on a nonempty input string. -/
def toWei (whole fraction : List (Fin 10)) (decimals : ℕ) : ℕ :=
  digitsVal (whole ++ (padEnd fraction decimals).take decimals)

/-- `formatFromWei` from the shared frontend utils (src/unnamed/part_001,
lines 157-165):
`const n = BigInt(value); const divisor = BigInt(10 ** decimals);`
`const whole = n / divisor; const fraction = n % divisor;`
`const fractionStr = fraction.toString().padStart(decimals, '0').slice(0, displayDecimals);`
and the result string interpolates the whole part, a dot and `fractionStr`;
it is modelled as the pair of the whole part's numeric value and the fraction
digit string.  `10 ** decimals` is a JS double, equal to `10 ^ decimals`
exactly when `decimals ≤ 22` (every call site passes the default 18); the
embedding uses the exact power.  The guard `if (!value) return '0'` does not
fire on the nonempty decimal strings `BigInt.prototype.toString` produces. -/
def formatFromWei (value decimals displayDecimals : ℕ) :
    ℕ × List (Fin 10) :=
  (value / 10 ^ decimals,
   (padStart (natDigits (value % 10 ^ decimals)) decimals).take
     displayDecimals)

lemma digitsVal_lt (l : List (Fin 10)) : digitsVal l < 10 ^ l.length := by
  induction l with
  | nil => simp [digitsVal]
  | cons d l ih =>
      have hd : d.val ≤ 9 := Nat.lt_succ_iff.mp d.isLt
      have h9 : d.val * 10 ^ l.length ≤ 9 * 10 ^ l.length :=
        Nat.mul_le_mul_right _ hd
      simp only [digitsVal, List.length_cons, pow_succ]
      omega

lemma digitsVal_append (l1 l2 : List (Fin 10)) :
    digitsVal (l1 ++ l2) = digitsVal l1 * 10 ^ l2.length + digitsVal l2 := by
  induction l1 with
  | nil => simp [digitsVal]
  | cons d l1 ih =>
      simp only [List.cons_append, digitsVal, List.append_eq,
        List.length_append, List.length_cons, ih, pow_add]
      ring

lemma digitsVal_replicate_zero (n : ℕ) :
    digitsVal (List.replicate n (0 : Fin 10)) = 0 := by
  induction n with
  | zero => rfl
  | succ n ih => simp [List.replicate_succ, digitsVal, ih]

lemma digitsVal_padStart (l : List (Fin 10)) (n : ℕ) :
    digitsVal (padStart l n) = digitsVal l := by
  rw [padStart, digitsVal_append, digitsVal_replicate_zero]
  simp

lemma digitsVal_natToDigitsRev (n : ℕ) :
    digitsVal (natToDigitsRev n).reverse = n := by
  induction n using Nat.strong_induction_on with
  | _ n ih =>
      match n with
      | 0 => simp [natToDigitsRev, digitsVal]
      | m + 1 =>
          rw [natToDigitsRev, List.reverse_cons, digitsVal_append]
          have ih' := ih ((m + 1) / 10)
            (Nat.div_lt_self (Nat.succ_pos m) (by norm_num))
          simp only [ih', List.length_cons, List.length_nil, pow_one,
            digitsVal, pow_zero, mul_one]
          omega

lemma digitsVal_natDigits (n : ℕ) : digitsVal (natDigits n) = n := by
  rw [natDigits]
  by_cases h : n = 0
  · simp [h, digitsVal]
  · rw [if_neg h]
    exact digitsVal_natToDigitsRev n

lemma natToDigitsRev_length_le {n d : ℕ} (h : n < 10 ^ d) :
    (natToDigitsRev n).length ≤ d := by
  induction n using Nat.strong_induction_on generalizing d with
  | _ n ih =>
      match n with
      | 0 => simp [natToDigitsRev]
      | m + 1 =>
          have hd1 : 1 ≤ d := by
            by_contra hc
            interval_cases d
            omega
          rw [natToDigitsRev]
          have hq : (m + 1) / 10 < 10 ^ (d - 1) := by
            rw [Nat.div_lt_iff_lt_mul (by norm_num : (0 : ℕ) < 10)]
            calc m + 1 < 10 ^ d := h
              _ = 10 ^ (d - 1) * 10 := by
                  rw [← pow_succ]
                  congr 1
                  omega
          have := ih ((m + 1) / 10)
            (Nat.div_lt_self (Nat.succ_pos m) (by norm_num)) hq
          simp only [List.length_cons]
          omega

lemma natDigits_length_le {n d : ℕ} (hd : 1 ≤ d) (h : n < 10 ^ d) :
    (natDigits n).length ≤ d := by
  rw [natDigits]
  by_cases h0 : n = 0
  · simpa [h0] using hd
  · rw [if_neg h0, List.length_reverse]
    exact natToDigitsRev_length_le h

lemma digitsVal_inj : ∀ (l1 l2 : List (Fin 10)),
    l1.length = l2.length → digitsVal l1 = digitsVal l2 → l1 = l2
  | [], [], _, _ => rfl
  | [], _ :: _, hlen, _ => by simp at hlen
  | _ :: _, [], hlen, _ => by simp at hlen
  | d1 :: t1, d2 :: t2, hlen, hval => by
      have hlen' : t1.length = t2.length := by
        simpa using hlen
      have hv1 : digitsVal t1 < 10 ^ t1.length := digitsVal_lt t1
      have hv2 : digitsVal t2 < 10 ^ t2.length := digitsVal_lt t2
      rw [digitsVal, digitsVal, hlen'] at hval
      have hd : d1.val = d2.val := by
        have e1 : (d1.val * 10 ^ t2.length + digitsVal t1) / 10 ^ t2.length
            = d1.val := by
          rw [Nat.mul_comm d1.val, Nat.mul_add_div (Nat.pos_pow_of_pos _
            (by norm_num)), Nat.div_eq_of_lt (hlen' ▸ hv1)]
          omega
        have e2 : (d2.val * 10 ^ t2.length + digitsVal t2) / 10 ^ t2.length
            = d2.val := by
          rw [Nat.mul_comm d2.val, Nat.mul_add_div (Nat.pos_pow_of_pos _
            (by norm_num)), Nat.div_eq_of_lt hv2]
          omega
        rw [← e1, ← e2, hval]
      have hdd : d1 = d2 := Fin.ext hd
      have ht : digitsVal t1 = digitsVal t2 := by
        rw [hd] at hval
        omega
      rw [hdd, digitsVal_inj t1 t2 hlen' ht]

/-- C9: wei conversion round trip.  For every nonnegative decimal string
whose fraction part has at most `decimals` digits (and `decimals ≤ 22`, the
range on which the JS double `10 ** decimals` is exact; call sites use 18),
`formatFromWei (toWei s decimals) decimals decimals` reproduces the input
value exactly: the whole part as the same number and the fraction part
right-padded with zeros to `decimals` digits. -/
theorem c9_wei_round_trip (whole fraction : List (Fin 10)) (decimals : ℕ)
    (hfrac : fraction.length ≤ decimals) (hdec : decimals ≤ 22) :
    formatFromWei (toWei whole fraction decimals) decimals decimals =
      (digitsVal whole,
       fraction ++ List.replicate (decimals - fraction.length) (0 : Fin 10)) := by
  set k := fraction.length with hk
  set F : List (Fin 10) :=
    fraction ++ List.replicate (decimals - k) (0 : Fin 10) with hF
  have hFlen : F.length = decimals := by
    simp only [hF, List.length_append, List.length_replicate]
    omega
  have htake : (padEnd fraction decimals).take decimals = F := by
    rw [padEnd, ← hk, ← hF]
    exact List.take_of_length_le (le_of_eq hFlen)
  have hto : toWei whole fraction decimals =
      digitsVal whole * 10 ^ decimals + digitsVal F := by
    rw [toWei, htake, digitsVal_append, hFlen]
  have hFval : digitsVal F < 10 ^ decimals := hFlen ▸ digitsVal_lt F
  have hpow : (0 : ℕ) < 10 ^ decimals := Nat.pos_pow_of_pos _ (by norm_num)
  have hdivq : toWei whole fraction decimals / 10 ^ decimals =
      digitsVal whole := by
    rw [hto, Nat.mul_comm (digitsVal whole), Nat.mul_add_div hpow,
      Nat.div_eq_of_lt hFval]
    omega
  have hmod : toWei whole fraction decimals % 10 ^ decimals = digitsVal F := by
    rw [hto, Nat.mul_comm (digitsVal whole), Nat.mul_add_mod,
      Nat.mod_eq_of_lt hFval]
  rw [formatFromWei, hdivq, hmod]
  refine Prod.ext rfl ?_
  show (padStart (natDigits (digitsVal F)) decimals).take decimals = F
  rcases Nat.eq_zero_or_pos decimals with hd0 | hd1
  · have hf0 : fraction = [] := List.eq_nil_of_length_eq_zero (by omega)
    have hF0 : F = [] := by
      rw [hF, hf0]
      simp only [List.nil_append]
      rw [show decimals - k = 0 by omega]
      rfl
    rw [hd0, List.take_zero, hF0]
  · have hlen1 : (natDigits (digitsVal F)).length ≤ decimals :=
      natDigits_length_le hd1 hFval
    have hplen : (padStart (natDigits (digitsVal F)) decimals).length =
        decimals := by
      simp only [padStart, List.length_append, List.length_replicate]
      omega
    rw [List.take_of_length_le (le_of_eq hplen)]
    refine digitsVal_inj _ _ (by rw [hplen, hFlen]) ?_
    rw [digitsVal_padStart, digitsVal_natDigits]

/-- Witness for C9 on the concrete string "1.5" with 3 decimals: `toWei`
yields 1500 and `formatFromWei` gives back whole part 1 and fraction digits
"500". -/
theorem c9_wei_round_trip_witness :
    formatFromWei (toWei [(1 : Fin 10)] [(5 : Fin 10)] 3) 3 3 =
      (digitsVal [(1 : Fin 10)],
       [(5 : Fin 10)] ++ List.replicate 2 (0 : Fin 10)) :=
  c9_wei_round_trip [(1 : Fin 10)] [(5 : Fin 10)] 3 (by norm_num)
    (by norm_num)

end DefiVault
